import Mathlib

set_option maxHeartbeats 1000000

/-!
Shallow embedding of the wcp copy utility (src/src/main.rs).

The program copies a byte stream between two addressable endpoints, each a
local filesystem path or a remote URL.  We embed the `Location` address type
and its queries, the fixed-buffer transfer loop `io_copy_with_progress`, the
generic `do_io_copy` engine over the four source/sink pairings, and the
`do_copy` orchestrator as an observable event trace.  External collaborators
(std `File`, the http_io client) are modelled at their interface boundary:
streams are scripts of read/write outcomes, the filesystem is a finite map.
Bytes are represented as `Nat` (their numeric value plays no role).
-/

/-- Model of http_io's URL path component (external crate): a sequence of path
components plus whether the textual path ended in a separator.  This is exactly
the interface `Location::is_dir` and `Location::name` consume
(`u.path.trailing_slash()`, `u.path.components()`, src/src/main.rs:65,79-83). -/
structure UrlPath where
  components : List String
  trailing_slash : Bool
deriving DecidableEq

/-- Model of http_io's `Url` (external crate): scheme, host and path; only the
path is consulted by the code under verification. -/
structure Url where
  scheme : String
  host : String
  path : UrlPath
deriving DecidableEq

/-- Modelled from http_io url parsing as pinned by the repository's tests
(src/src/main.rs:104-105,116-117): `http://ex.com` parses to an empty path
with no trailing separator. -/
def urlHostOnly : Url := ⟨"http", "ex.com", ⟨[], false⟩⟩

/-- Modelled from http_io url parsing as pinned by the repository's tests
(src/src/main.rs:101-102,113-114): `http://ex.com/` parses to an empty path
with a trailing separator. -/
def urlRootSlash : Url := ⟨"http", "ex.com", ⟨[], true⟩⟩

/-- Model of std `PathBuf` (external): whether the path is absolute plus its
normal components.  `file_name` is the last component (`None` on a bare root),
`push` appends a component. -/
structure PathB where
  absolute : Bool
  components : List String
deriving DecidableEq

/-- Modelled from std `PathBuf::from` (external, used at src/src/main.rs:56):
split the string on the path separator into normal components. -/
def pathBufFrom (s : String) : PathB :=
  ⟨s.startsWith "/", (s.splitOn "/").filter (fun c => c ≠ "")⟩

/-- The `Location` sum type (src/src/main.rs:35-39): a remote URL or a local
path. -/
inductive Location where
  | Remote (u : Url)
  | Local (p : PathB)
deriving DecidableEq

/-- `Location::is_dir` (src/src/main.rs:62-67).  The local case queries the
filesystem (`p.is_dir()`), so it is parameterised by the set `dirs` of paths
that exist and are directories; the remote case is
`u.path.trailing_slash() || u.path.components().count() == 0`. -/
def Location.is_dir (dirs : PathB → Bool) : Location → Bool
  | .Local p => dirs p
  | .Remote u => u.path.trailing_slash || u.path.components.length == 0

/-- `Location::push` (src/src/main.rs:69-74): append one path component to the
address, in place. -/
def Location.push (component : String) : Location → Location
  | .Local p => .Local ⟨p.absolute, p.components ++ [component]⟩
  | .Remote u => .Remote { u with path := ⟨u.path.components ++ [component], u.path.trailing_slash⟩ }

/-- `Location::name` (src/src/main.rs:76-87).  For a local path this is
`p.file_name().unwrap()`: `none` models the panic on a path with no final
segment.  For a remote URL it is the last path component unless the path has a
trailing separator, falling back to "index.html". -/
def Location.name : Location → Option String
  | .Local p => p.components.getLast?
  | .Remote u =>
      some ((if u.path.trailing_slash then none else u.path.components.getLast?).getD "index.html")

/-- `FromStr for Location` (src/src/main.rs:50-59), parameterised by the
external http_io url parser: if the string parses as a URL the result is
`Remote`, otherwise `Local` of the string as a path.  The error type is
`Empty`, embedding Rust's `Infallible`. -/
def Location.from_str (parseUrl : String → Option Url) (s : String) : Except Empty Location :=
  match parseUrl s with
  | some u => Except.ok (Location.Remote u)
  | none => Except.ok (Location.Local (pathBufFrom s))

/-- `DEFAULT_BUF_SIZE` (src/src/main.rs:241): the transfer loop's buffer size. -/
def DEFAULT_BUF_SIZE : Nat := 8 * 1024

/-- One outcome of a `reader.read(&mut buf)` call (std `io::Read`, external):
either a chunk of bytes (`[]` meaning end-of-stream, `Ok(0)`), or an I/O
error, identified by a numeric code. -/
inductive ReadStep where
  | chunk (bytes : List Nat)
  | err (e : Nat)
deriving DecidableEq

/-- One outcome of a `writer.write_all(..)` call (std `io::Write`, external):
success, or an I/O error identified by a numeric code. -/
inductive WriteStep where
  | ok
  | err (e : Nat)
deriving DecidableEq

/-- What one run of the transfer loop produces: its return value (`Ok written`
or the propagated error), the bytes the sink received in order, and the list
of progress-indicator increments. -/
structure CopyOutcome where
  result : Except Nat Nat
  sinkBytes : List Nat
  progressIncs : List Nat

/-- `io_copy_with_progress` (src/src/main.rs:243-264) over scripted streams.
The reader is a script of read outcomes consumed one per call; the writer is a
script of write outcomes (an exhausted writer script accepts all further
writes).  `written` accumulates the return value, `sink` the bytes written,
`incs` the progress increments; a loop run starts them at `0`, `[]`, `[]`.
An exhausted reader script ends the run as end-of-stream would. -/
def io_copy_with_progress :
    List ReadStep → List WriteStep → Nat → List Nat → List Nat → CopyOutcome
  | [], _, written, sink, incs => ⟨.ok written, sink, incs⟩
  | ReadStep.err e :: _, _, _, sink, incs => ⟨.error e, sink, incs⟩
  | ReadStep.chunk [] :: _, _, written, sink, incs => ⟨.ok written, sink, incs⟩
  | ReadStep.chunk (_ :: _) :: _, WriteStep.err e :: _, _, sink, incs => ⟨.error e, sink, incs⟩
  | ReadStep.chunk (b :: bs) :: rs, WriteStep.ok :: ws, written, sink, incs =>
      io_copy_with_progress rs ws (written + (b :: bs).length) (sink ++ (b :: bs))
        (incs ++ [(b :: bs).length])
  | ReadStep.chunk (b :: bs) :: rs, [], written, sink, incs =>
      io_copy_with_progress rs [] (written + (b :: bs).length) (sink ++ (b :: bs))
        (incs ++ [(b :: bs).length])

/-- The two `CopySource` implementations (src/src/main.rs:193-198,220-225):
a local path opened as a `File`, or a remote URL opened via an HTTP GET. -/
inductive SourceKind where
  | localFile
  | remoteUrl
deriving DecidableEq

/-- The two `CopySink` implementations (src/src/main.rs:200-205,227-232):
a local path opened via `File::create`, or a remote URL opened via HTTP PUT. -/
inductive SinkKind where
  | localFile
  | remoteUrl
deriving DecidableEq

/-- `stream_size` of an opened source stream (src/src/main.rs:180-184,207-211):
a `File` reports its metadata length — the total number of bytes its reads
yield, i.e. the flattened length of its chunk script — while an HTTP body
reports its optional `content_length` header value. -/
def sourceStreamSize (k : SourceKind) (chunks : List (List Nat)) (contentLength : Option Nat) :
    Option Nat :=
  match k with
  | .localFile => some chunks.flatten.length
  | .remoteUrl => contentLength

/-- Modelled from std `File::write_all` and http_io `OutgoingRequest::write_all`
(external): both sink kinds accept every write, appending the bytes to the
destination, unless the transport injects an error; the default script injects
none. -/
def sinkWriteScript : SinkKind → List WriteStep := fun _ => []

/-- The progress representation chosen by `do_io_copy`
(src/src/main.rs:277-280): a bounded bar when the source reports a size, an
indeterminate spinner otherwise. -/
inductive ProgressStyle where
  | bar (total : Nat)
  | spinner
deriving DecidableEq

/-- What one `do_io_copy` run produces: the progress style chosen before the
loop, the loop's outcome, and whether `stream_finish` was reached (it is
skipped when the loop propagates an error, src/src/main.rs:287-289). -/
structure IoCopyRun where
  style : ProgressStyle
  outcome : CopyOutcome
  finished : Bool

/-- `do_io_copy` (src/src/main.rs:266-292) over the stream models: open the
source (its reads are the chunk script followed by end-of-stream) and the sink
(its writes follow `writeScript`), choose the progress style from
`stream_size`, run the transfer loop, then finish the sink stream unless the
loop failed. -/
def do_io_copy (k : SourceKind) (_sk : SinkKind) (chunks : List (List Nat))
    (contentLength : Option Nat) (writeScript : List WriteStep) : IoCopyRun :=
  let style := match sourceStreamSize k chunks contentLength with
    | some n => ProgressStyle.bar n
    | none => ProgressStyle.spinner
  let outcome :=
    io_copy_with_progress (chunks.map ReadStep.chunk ++ [ReadStep.chunk []]) writeScript 0 [] []
  ⟨style, outcome, match outcome.result with | .ok _ => true | .error _ => false⟩

/-- An observable step of `do_copy`: the `copying .. to ..` line printed with
its two arguments, or the opening of a stream on an address. -/
inductive Event where
  | printCopying (source destination : Location)
  | openRead (source : Location)
  | openWrite (destination : Location)
deriving DecidableEq

/-- The trace of one `do_copy` invocation: the resolved destination address and
the observable events in program order. -/
structure DoCopyTrace where
  resolved : Location
  events : List Event
deriving DecidableEq

/-- `do_copy` (src/src/main.rs:294-309) as a trace: if the destination is a
directory, push the source's basename onto it (the `unwrap` inside
`Location::name` can panic, modelled by `none`); print the copying line; then
dispatch to `do_io_copy`, which opens the source for reading and the
destination for writing. -/
def do_copy (dirs : PathB → Bool) (source destination : Location) : Option DoCopyTrace :=
  if destination.is_dir dirs then
    match source.name with
    | none => none
    | some n =>
        let d := destination.push n
        some ⟨d, [.printCopying source d, .openRead source, .openWrite d]⟩
  else
    some ⟨destination, [.printCopying source destination, .openRead source, .openWrite destination]⟩

/-- Model of the local filesystem's regular files: a finite map from paths to
byte contents. -/
abbrev Fs := List (PathB × List Nat)

/-- Contents of the file at a path, when one exists. -/
def Fs.lookup (fs : Fs) (p : PathB) : Option (List Nat) :=
  match fs with
  | [] => none
  | (q, c) :: rest => if q = p then some c else Fs.lookup rest p

/-- Replace (or create) the file at a path with the given contents. -/
def Fs.update (fs : Fs) (p : PathB) (c : List Nat) : Fs :=
  match fs with
  | [] => [(p, c)]
  | (q, d) :: rest => if q = p then (p, c) :: rest else (q, d) :: Fs.update rest p c

/-- Modelled from std `File::create` (external, called by the `CopySink`
implementation for `PathBuf` at src/src/main.rs:230): open a file for writing,
creating it if absent and truncating it to zero length if present; it does not
fail because the path already names a file. -/
def fileCreate (fs : Fs) (p : PathB) : Option Fs :=
  some (Fs.update fs p [])

/-- Modelled from std `File::write_all` (external): append bytes to the open
file's contents. -/
def fileWriteAll (fs : Fs) (p : PathB) (bytes : List Nat) : Fs :=
  Fs.update fs p ((Fs.lookup fs p).getD [] ++ bytes)

/-! Helper lemmas about the transfer loop. -/

/-- Running the loop over a batch of nonempty chunks with an all-accepting
writer consumes the batch: the written count, sink bytes and progress
increments each advance by the batch's contribution. -/
theorem ioCopy_advance_ok (pre : List (List Nat)) (rs : List ReadStep)
    (w : Nat) (s i : List Nat) (h : ∀ c ∈ pre, c ≠ []) :
    io_copy_with_progress (pre.map ReadStep.chunk ++ rs) [] w s i
      = io_copy_with_progress rs [] (w + (pre.map List.length).sum) (s ++ pre.flatten)
          (i ++ pre.map List.length) := by
  induction pre generalizing w s i with
  | nil => simp
  | cons c pre ih =>
    obtain ⟨b, bs, rfl⟩ : ∃ b bs, c = b :: bs := by
      cases c with
      | nil => exact absurd rfl (h _ (by simp))
      | cons b bs => exact ⟨b, bs, rfl⟩
    simp only [List.map_cons, List.cons_append, io_copy_with_progress, List.append_eq]
    rw [ih _ _ _ (fun c hc => h c (List.mem_cons_of_mem _ hc))]
    congr 1
    · simp [Nat.add_assoc]
    · simp
    · simp

/-- Running the loop over a batch of nonempty chunks whose writes all succeed
consumes the batch and the matching block of the writer script. -/
theorem ioCopy_advance_okscript (pre : List (List Nat)) (rs : List ReadStep)
    (ws : List WriteStep) (w : Nat) (s i : List Nat) (h : ∀ c ∈ pre, c ≠ []) :
    io_copy_with_progress (pre.map ReadStep.chunk ++ rs)
        (List.replicate pre.length WriteStep.ok ++ ws) w s i
      = io_copy_with_progress rs ws (w + (pre.map List.length).sum) (s ++ pre.flatten)
          (i ++ pre.map List.length) := by
  induction pre generalizing w s i with
  | nil => simp
  | cons c pre ih =>
    obtain ⟨b, bs, rfl⟩ : ∃ b bs, c = b :: bs := by
      cases c with
      | nil => exact absurd rfl (h _ (by simp))
      | cons b bs => exact ⟨b, bs, rfl⟩
    simp only [List.map_cons, List.cons_append, List.length_cons, List.replicate_succ,
      io_copy_with_progress, List.append_eq]
    rw [ih _ _ _ (fun c hc => h c (List.mem_cons_of_mem _ hc))]
    congr 1
    · simp [Nat.add_assoc]
    · simp
    · simp

/-- Whatever the scripts do, the bytes the sink gains over a run are exactly
the progress increments the run records. -/
theorem ioCopy_sink_incs (rs : List ReadStep) (ws : List WriteStep) (w : Nat) (s i : List Nat) :
    (io_copy_with_progress rs ws w s i).sinkBytes.length + i.sum
      = (io_copy_with_progress rs ws w s i).progressIncs.sum + s.length := by
  induction rs generalizing ws w s i with
  | nil => simp [io_copy_with_progress]; omega
  | cons r rs ih =>
    cases r with
    | err e => simp [io_copy_with_progress]; omega
    | chunk c =>
      cases c with
      | nil => simp [io_copy_with_progress]; omega
      | cons b bs =>
        cases ws with
        | nil =>
          have := ih [] (w + (b :: bs).length) (s ++ (b :: bs)) (i ++ [(b :: bs).length])
          simp only [io_copy_with_progress]
          simp only [List.sum_append, List.length_append] at this ⊢
          simp at this ⊢
          omega
        | cons wstep ws =>
          cases wstep with
          | err e => simp [io_copy_with_progress]; omega
          | ok =>
            have := ih ws (w + (b :: bs).length) (s ++ (b :: bs)) (i ++ [(b :: bs).length])
            simp only [io_copy_with_progress]
            simp only [List.sum_append, List.length_append] at this ⊢
            simp at this ⊢
            omega

/-- Looking an updated path up in the filesystem yields the new contents. -/
theorem Fs.lookup_update (fs : Fs) (p : PathB) (c : List Nat) :
    Fs.lookup (Fs.update fs p c) p = some c := by
  induction fs with
  | nil => simp [Fs.update, Fs.lookup]
  | cons qd rest ih =>
    obtain ⟨q, d⟩ := qd
    by_cases hq : q = p
    · simp [Fs.update, Fs.lookup, hq]
    · simp [Fs.update, Fs.lookup, hq, ih]

/-! The claims. -/

/-- C4: for every Remote address, `is_dir` is true exactly when the URL's path
has a trailing separator or has zero components; in particular the host-only
form `http://ex.com` and the trailing-separator form `http://ex.com/` are both
classified as directory-like, whatever the local filesystem looks like. -/
theorem remote_is_dir_characterisation (dirs : PathB → Bool) (u : Url) :
    ((Location.Remote u).is_dir dirs = true
        ↔ (u.path.trailing_slash = true ∨ u.path.components = []))
    ∧ (Location.Remote urlHostOnly).is_dir dirs = true
    ∧ (Location.Remote urlRootSlash).is_dir dirs = true := by
  refine ⟨?_, rfl, rfl⟩
  simp [Location.is_dir, List.length_eq_zero]

/-- C5: for every Remote address, `name` yields the final path component when
the address is not directory-like, and the fixed fallback "index.html" when it
is (trailing separator or empty path); both the host-only and the
trailing-separator forms yield the fallback. -/
theorem remote_name_characterisation (dirs : PathB → Bool) (u : Url) :
    ((Location.Remote u).is_dir dirs = false →
        ∃ n, u.path.components.getLast? = some n ∧ (Location.Remote u).name = some n)
    ∧ ((Location.Remote u).is_dir dirs = true → (Location.Remote u).name = some "index.html")
    ∧ (Location.Remote urlHostOnly).name = some "index.html"
    ∧ (Location.Remote urlRootSlash).name = some "index.html" := by
  refine ⟨?_, ?_, rfl, rfl⟩
  · intro h
    simp only [Location.is_dir, Bool.or_eq_false_iff, beq_eq_false_iff_ne, ne_eq,
      List.length_eq_zero] at h
    obtain ⟨ht, hc⟩ := h
    obtain ⟨n, hn⟩ := Option.ne_none_iff_exists'.mp (mt List.getLast?_eq_none_iff.mp hc)
    exact ⟨n, hn, by simp [Location.name, ht, hn]⟩
  · intro h
    simp only [Location.is_dir, Bool.or_eq_true, beq_iff_eq, List.length_eq_zero] at h
    rcases h with h | h
    · simp [Location.name, h]
    · cases ht : u.path.trailing_slash <;> simp [Location.name, ht, h]

/-- C6: parsing a string into a Location is total and infallible — the error
type is empty and every string yields an address — and the result is `Remote`
exactly when the URL parser accepts the string, falling back to a local path
otherwise. -/
theorem from_str_total (parseUrl : String → Option Url) (s : String) :
    ∃ loc, Location.from_str parseUrl s = Except.ok loc
      ∧ ((∃ u, parseUrl s = some u ∧ loc = Location.Remote u)
          ∨ (parseUrl s = none ∧ loc = Location.Local (pathBufFrom s))) := by
  cases h : parseUrl s with
  | some u =>
      exact ⟨Location.Remote u, by simp [Location.from_str, h], Or.inl ⟨u, rfl, rfl⟩⟩
  | none =>
      exact ⟨Location.Local (pathBufFrom s), by simp [Location.from_str, h], Or.inr ⟨rfl, rfl⟩⟩

/-- C9: on a Local address whose path has no final segment `name` hits the
`unwrap` panic (modelled as `none`); on any Local address with a final segment
it returns that segment without panicking, in particular "a" for "/b/c/a". -/
theorem local_name_characterisation (p : PathB) :
    (p.components = [] → (Location.Local p).name = none)
    ∧ (p.components ≠ [] →
        ∃ n, p.components.getLast? = some n ∧ (Location.Local p).name = some n)
    ∧ (Location.Local ⟨true, ["b", "c", "a"]⟩).name = some "a"
    ∧ (Location.Local ⟨true, []⟩).name = none := by
  refine ⟨?_, ?_, rfl, rfl⟩
  · intro h
    simp [Location.name, h]
  · intro h
    obtain ⟨n, hn⟩ := Option.ne_none_iff_exists'.mp (mt List.getLast?_eq_none_iff.mp h)
    exact ⟨n, hn, by simp [Location.name, hn]⟩

/-- C3: whenever `do_copy` runs to a trace, the source's basename has been
pushed onto the destination exactly when the destination was directory-like
(otherwise the destination is unchanged), and the `copying .. to ..` line —
already showing the resolved destination — precedes both stream openings. -/
theorem do_copy_resolution (dirs : PathB → Bool) (src dst : Location) (t : DoCopyTrace)
    (h : do_copy dirs src dst = some t) :
    (dst.is_dir dirs = true → ∃ n, src.name = some n ∧ t.resolved = dst.push n)
    ∧ (dst.is_dir dirs = false → t.resolved = dst)
    ∧ t.events = [Event.printCopying src t.resolved, Event.openRead src,
        Event.openWrite t.resolved] := by
  cases hd : dst.is_dir dirs with
  | true =>
    cases hn : src.name with
    | none => simp [do_copy, hd, hn] at h
    | some n =>
      simp only [do_copy, hd, hn, if_true, Option.some.injEq] at h
      subst h
      exact ⟨fun _ => ⟨n, rfl, rfl⟩, fun hcontra => by simp [hd] at hcontra, rfl⟩
  | false =>
    simp only [do_copy, hd, Bool.false_eq_true, if_false, Option.some.injEq] at h
    subst h
    exact ⟨fun hcontra => by simp [hd] at hcontra, fun _ => rfl, rfl⟩

/-- C3 witness: copying `/s/f` into the directory `/d` resolves the
destination to `/d/f`, prints it resolved, and opens the streams afterwards. -/
theorem do_copy_resolution_witness :
    ((Location.Local ⟨true, ["d"]⟩).is_dir (fun _ => true) = true →
        ∃ n, (Location.Local ⟨true, ["s", "f"]⟩).name = some n
          ∧ Location.Local ⟨true, ["d", "f"]⟩ = (Location.Local ⟨true, ["d"]⟩).push n)
    ∧ ((Location.Local ⟨true, ["d"]⟩).is_dir (fun _ => true) = false →
        Location.Local ⟨true, ["d", "f"]⟩ = Location.Local ⟨true, ["d"]⟩)
    ∧ [Event.printCopying (Location.Local ⟨true, ["s", "f"]⟩) (Location.Local ⟨true, ["d", "f"]⟩),
        Event.openRead (Location.Local ⟨true, ["s", "f"]⟩),
        Event.openWrite (Location.Local ⟨true, ["d", "f"]⟩)]
      = [Event.printCopying (Location.Local ⟨true, ["s", "f"]⟩)
            (Location.Local ⟨true, ["d", "f"]⟩),
          Event.openRead (Location.Local ⟨true, ["s", "f"]⟩),
          Event.openWrite (Location.Local ⟨true, ["d", "f"]⟩)] :=
  do_copy_resolution (fun _ => true) (Location.Local ⟨true, ["s", "f"]⟩)
    (Location.Local ⟨true, ["d"]⟩)
    ⟨Location.Local ⟨true, ["d", "f"]⟩,
      [Event.printCopying (Location.Local ⟨true, ["s", "f"]⟩) (Location.Local ⟨true, ["d", "f"]⟩),
        Event.openRead (Location.Local ⟨true, ["s", "f"]⟩),
        Event.openWrite (Location.Local ⟨true, ["d", "f"]⟩)]⟩ rfl

/-- C10: opening the local-path sink with `File::create` succeeds even when the
path already names a file, truncates it to zero length before any write, and
the bytes subsequently written replace the old contents entirely. -/
theorem local_sink_create_truncates (fs : Fs) (p : PathB) (old : List Nat)
    (h : Fs.lookup fs p = some old) :
    ∃ fs2, fileCreate fs p = some fs2 ∧ Fs.lookup fs2 p = some []
      ∧ ∀ bytes, Fs.lookup (fileWriteAll fs2 p bytes) p = some bytes := by
  refine ⟨Fs.update fs p [], rfl, Fs.lookup_update fs p [], fun bytes => ?_⟩
  simp [fileWriteAll, Fs.lookup_update]

/-- C10 witness: creating over an existing one-entry filesystem truncates the
file and a subsequent write leaves exactly the written bytes. -/
theorem local_sink_create_truncates_witness :
    ∃ fs2, fileCreate [(⟨true, ["f"]⟩, [1, 2])] ⟨true, ["f"]⟩ = some fs2
      ∧ Fs.lookup fs2 ⟨true, ["f"]⟩ = some []
      ∧ ∀ bytes, Fs.lookup (fileWriteAll fs2 ⟨true, ["f"]⟩ bytes) ⟨true, ["f"]⟩ = some bytes :=
  local_sink_create_truncates [(⟨true, ["f"]⟩, [1, 2])] ⟨true, ["f"]⟩ [1, 2] rfl

/-- C1: for every source implementation and every sink implementation (all
four Local/Remote pairings), copying a source whose reads deliver the bytes
`chunks.flatten` — in nonempty chunks bounded by the loop's buffer — leaves
the destination with a byte sequence identical to the source's, whatever the
byte count, and the loop returns exactly that count. -/
theorem copy_roundtrip (k : SourceKind) (sk : SinkKind) (chunks : List (List Nat))
    (cl : Option Nat) (h : ∀ c ∈ chunks, c ≠ [] ∧ c.length ≤ DEFAULT_BUF_SIZE) :
    (do_io_copy k sk chunks cl (sinkWriteScript sk)).outcome.sinkBytes = chunks.flatten
    ∧ (do_io_copy k sk chunks cl (sinkWriteScript sk)).outcome.result
        = Except.ok chunks.flatten.length := by
  have key : io_copy_with_progress (chunks.map ReadStep.chunk ++ [ReadStep.chunk []]) [] 0 [] []
      = ⟨Except.ok chunks.flatten.length, chunks.flatten, chunks.map List.length⟩ := by
    rw [ioCopy_advance_ok chunks [ReadStep.chunk []] 0 [] [] (fun c hc => (h c hc).1)]
    simp [io_copy_with_progress, List.length_flatten]
  constructor
  · simp [do_io_copy, sinkWriteScript, key]
  · simp [do_io_copy, sinkWriteScript, key]

/-- C1 witness: a two-chunk source copied from a local file to a remote sink
arrives byte-identical with return value 3. -/
theorem copy_roundtrip_witness :
    (do_io_copy SourceKind.localFile SinkKind.remoteUrl [[7, 7], [1]] none
        (sinkWriteScript SinkKind.remoteUrl)).outcome.sinkBytes = [7, 7, 1]
    ∧ (do_io_copy SourceKind.localFile SinkKind.remoteUrl [[7, 7], [1]] none
        (sinkWriteScript SinkKind.remoteUrl)).outcome.result = Except.ok 3 :=
  copy_roundtrip SourceKind.localFile SinkKind.remoteUrl [[7, 7], [1]] none (by decide)

/-- C2: the transfer loop, fed any sequence of nonempty reads bounded by the
8192-byte buffer and then a zero-length read, writes each chunk in order to
the sink before the next read, stops at the zero-length read — the rest of
the reader script is never consumed — and returns the total byte count. -/
theorem transfer_loop_contract (pre : List (List Nat)) (rest : List ReadStep)
    (h : ∀ c ∈ pre, c ≠ [] ∧ c.length ≤ DEFAULT_BUF_SIZE) :
    io_copy_with_progress (pre.map ReadStep.chunk ++ ReadStep.chunk [] :: rest) [] 0 [] []
      = ⟨Except.ok pre.flatten.length, pre.flatten, pre.map List.length⟩
    ∧ DEFAULT_BUF_SIZE = 8192 := by
  refine ⟨?_, rfl⟩
  rw [ioCopy_advance_ok pre (ReadStep.chunk [] :: rest) 0 [] [] (fun c hc => (h c hc).1)]
  simp [io_copy_with_progress, List.length_flatten]

/-- C2 witness: two chunks then end-of-stream yield the concatenation and
total 3, leaving a scripted read error after the end-of-stream unreached. -/
theorem transfer_loop_contract_witness :
    io_copy_with_progress
        ([[1], [2, 3]].map ReadStep.chunk ++ ReadStep.chunk [] :: [ReadStep.err 7]) [] 0 [] []
      = ⟨Except.ok 3, [1, 2, 3], [1, 2]⟩
    ∧ DEFAULT_BUF_SIZE = 8192 :=
  transfer_loop_contract [[1], [2, 3]] [ReadStep.err 7] (by decide)

/-- C7: a read error or a write error aborts the transfer loop at once — the
rest of the reader script is never consumed — propagating that very error, and
the bytes already written to the sink stay written (no rollback). -/
theorem error_propagation (pre : List (List Nat)) (rest : List ReadStep) (e e2 : Nat)
    (c : List Nat) (h : ∀ x ∈ pre, x ≠ []) (hc : c ≠ []) :
    io_copy_with_progress (pre.map ReadStep.chunk ++ ReadStep.err e :: rest) [] 0 [] []
      = ⟨Except.error e, pre.flatten, pre.map List.length⟩
    ∧ io_copy_with_progress (pre.map ReadStep.chunk ++ ReadStep.chunk c :: rest)
        (List.replicate pre.length WriteStep.ok ++ WriteStep.err e2 :: []) 0 [] []
      = ⟨Except.error e2, pre.flatten, pre.map List.length⟩ := by
  obtain ⟨b, bs, rfl⟩ : ∃ b bs, c = b :: bs := by
    cases c with
    | nil => exact absurd rfl hc
    | cons b bs => exact ⟨b, bs, rfl⟩
  constructor
  · rw [ioCopy_advance_ok pre (ReadStep.err e :: rest) 0 [] [] h]
    simp [io_copy_with_progress]
  · rw [ioCopy_advance_okscript pre (ReadStep.chunk (b :: bs) :: rest)
        (WriteStep.err e2 :: []) 0 [] [] h]
    simp [io_copy_with_progress]

/-- C7 witness: after one successful chunk, a read error 3 or a write error 4
surfaces unchanged while the chunk already written stays in the sink. -/
theorem error_propagation_witness :
    io_copy_with_progress ([[5]].map ReadStep.chunk ++ ReadStep.err 3 :: []) [] 0 [] []
      = ⟨Except.error 3, [5], [1]⟩
    ∧ io_copy_with_progress ([[5]].map ReadStep.chunk ++ ReadStep.chunk [9] :: [])
        (List.replicate [[5]].length WriteStep.ok ++ WriteStep.err 4 :: []) 0 [] []
      = ⟨Except.error 4, [5], [1]⟩ :=
  error_propagation [[5]] [] 3 4 [9] (by decide) (by decide)

/-- C8: over one transfer the progress increments sum to exactly the bytes
written to the sink, that sum is the loop's return value, and whenever the
source stream reports a known size (a file's metadata length, or an honest
HTTP content length) the sum equals that size. -/
theorem progress_increments_total (k : SourceKind) (sk : SinkKind)
    (chunks : List (List Nat)) (cl : Option Nat) (h : ∀ c ∈ chunks, c ≠ [])
    (hcl : k = SourceKind.remoteUrl → cl = none ∨ cl = some chunks.flatten.length) :
    (do_io_copy k sk chunks cl (sinkWriteScript sk)).outcome.progressIncs.sum
        = (do_io_copy k sk chunks cl (sinkWriteScript sk)).outcome.sinkBytes.length
    ∧ (do_io_copy k sk chunks cl (sinkWriteScript sk)).outcome.result
        = Except.ok (do_io_copy k sk chunks cl (sinkWriteScript sk)).outcome.progressIncs.sum
    ∧ (∀ n, sourceStreamSize k chunks cl = some n →
        (do_io_copy k sk chunks cl (sinkWriteScript sk)).outcome.progressIncs.sum = n) := by
  have key : io_copy_with_progress (chunks.map ReadStep.chunk ++ [ReadStep.chunk []]) [] 0 [] []
      = ⟨Except.ok chunks.flatten.length, chunks.flatten, chunks.map List.length⟩ := by
    rw [ioCopy_advance_ok chunks [ReadStep.chunk []] 0 [] [] h]
    simp [io_copy_with_progress, List.length_flatten]
  refine ⟨?_, ?_, ?_⟩
  · simp [do_io_copy, sinkWriteScript, key, List.length_flatten]
  · simp [do_io_copy, sinkWriteScript, key, List.length_flatten]
  · intro n hn
    cases k with
    | localFile =>
      simp only [sourceStreamSize, Option.some.injEq] at hn
      simp [do_io_copy, sinkWriteScript, key, List.length_flatten, ← hn]
    | remoteUrl =>
      rcases hcl rfl with h1 | h1
      · rw [h1] at hn
        simp [sourceStreamSize] at hn
      · rw [h1] at hn
        simp only [sourceStreamSize, Option.some.injEq] at hn
        simp [do_io_copy, sinkWriteScript, key, List.length_flatten, ← hn]

/-- C8 witness: a remote source declaring content length 2 delivering one
2-byte chunk records increments summing to the bytes written, the return
value, and the declared size. -/
theorem progress_increments_total_witness :
    (do_io_copy SourceKind.remoteUrl SinkKind.localFile [[2, 2]] (some 2)
        (sinkWriteScript SinkKind.localFile)).outcome.progressIncs.sum
        = (do_io_copy SourceKind.remoteUrl SinkKind.localFile [[2, 2]] (some 2)
            (sinkWriteScript SinkKind.localFile)).outcome.sinkBytes.length
    ∧ (do_io_copy SourceKind.remoteUrl SinkKind.localFile [[2, 2]] (some 2)
        (sinkWriteScript SinkKind.localFile)).outcome.result
        = Except.ok (do_io_copy SourceKind.remoteUrl SinkKind.localFile [[2, 2]] (some 2)
            (sinkWriteScript SinkKind.localFile)).outcome.progressIncs.sum
    ∧ (∀ n, sourceStreamSize SourceKind.remoteUrl [[2, 2]] (some 2) = some n →
        (do_io_copy SourceKind.remoteUrl SinkKind.localFile [[2, 2]] (some 2)
            (sinkWriteScript SinkKind.localFile)).outcome.progressIncs.sum = n) :=
  progress_increments_total SourceKind.remoteUrl SinkKind.localFile [[2, 2]] (some 2)
    (by decide) (by decide)
